import Mathlib

/-!
Verification of src/src/vector.rs (Pradene/matrix): a fixed-dimension numeric
vector type `Vector<T, const N: usize>` with elementwise arithmetic, norms,
dot product, cosine similarity, cross product, linear interpolation and
linear combination.

Modelling conventions:
* `Vector<T, N>` (a Rust array `[T; N]`) is the structure `Vector T N` with
  field `data : Fin N → T`.
* A Rust `panic!` / failed `assert!` is modelled by returning `none` from an
  `Option`-valued function; normal completion returns `some`.
* The Rust float type `f32` is modelled by the real numbers `ℝ` (idealised,
  exact arithmetic); `powf` is `Real.rpow`.
* Trait bounds on the element type `T` become type-class assumptions;
  `T::default()` for numeric types is `0`, modelled by `Zero T`.
-/

namespace Pradene

/-- Embedding of the struct `Vector<T, const N: usize> { data: [T; N] }`
from src/src/vector.rs. -/
structure Vector (T : Type) (N : ℕ) where
  data : Fin N → T

theorem Vector.ext {T : Type} {N : ℕ} {a b : Vector T N}
    (h : ∀ i, a.data i = b.data i) : a = b := by
  cases a
  cases b
  simp only [Vector.mk.injEq]
  funext i
  exact h i

instance {T : Type} {N : ℕ} [DecidableEq T] : DecidableEq (Vector T N) :=
  fun a b =>
    decidable_of_iff (∀ i, a.data i = b.data i)
      ⟨Vector.ext, fun h i => by rw [h]⟩

/-- Embedding of `impl Index<usize> for Vector<T, N>`: `self[i]` returns the
element at `i` when `i < N` and panics (`none`) otherwise. -/
def Vector.index {T : Type} {N : ℕ} (v : Vector T N) (i : ℕ) : Option T :=
  if h : i < N then some (v.data ⟨i, h⟩) else none

/-- Embedding of `impl IndexMut<usize> for Vector<T, N>`: `self[i] = x`
replaces the element at `i` when `i < N` and panics (`none`) otherwise. -/
def Vector.index_mut {T : Type} {N : ℕ} (v : Vector T N) (i : ℕ) (x : T) :
    Option (Vector T N) :=
  if h : i < N then some ⟨Function.update v.data ⟨i, h⟩ x⟩ else none

/-- Embedding of `impl Add for Vector<T, N>`: the source clones `self` and
sets `result[i] = result[i] + v[i]` for every `i in 0..N`, which is the
elementwise sum. -/
def Vector.add {T : Type} {N : ℕ} [Add T] (a b : Vector T N) : Vector T N :=
  ⟨fun i => a.data i + b.data i⟩

/-- Embedding of `impl Sub for Vector<T, N>`: elementwise difference. -/
def Vector.sub {T : Type} {N : ℕ} [Sub T] (a b : Vector T N) : Vector T N :=
  ⟨fun i => a.data i - b.data i⟩

/-- Embedding of `impl Mul<T> for Vector<T, N>`: elementwise scaling,
`result[i] = result[i] * scalar`. -/
def Vector.mul {T : Type} {N : ℕ} [Mul T] (a : Vector T N) (s : T) :
    Vector T N :=
  ⟨fun i => a.data i * s⟩

/-- Embedding of `impl PartialEq for Vector<T, N>`: `self.data == vector.data`,
where Rust array equality is pairwise element equality under the element
type's own (possibly non-reflexive) equality `beq`. -/
def Vector.eq {T : Type} {N : ℕ} (beq : T → T → Bool) (a b : Vector T N) :
    Bool :=
  (List.finRange N).all fun i => beq (a.data i) (b.data i)

/-- Embedding of `Vector::dot` at the float element type (`Into<f32>` is the
identity): `self.data.iter().zip(...).fold(0., |sum, (x, y)| sum + x*y)`. -/
def Vector.dot {N : ℕ} (a b : Vector ℝ N) : ℝ :=
  (List.finRange N).foldl (fun sum i => sum + a.data i * b.data i) 0

/-- Embedding of `Vector::norm` at the float element type:
`fold(0., |sum, x| sum + x.abs().powf(2.)).powf(0.5)`, with `powf` as
`Real.rpow`. -/
noncomputable def Vector.norm {N : ℕ} (v : Vector ℝ N) : ℝ :=
  ((List.finRange N).foldl (fun sum i => sum + |v.data i| ^ (2 : ℝ)) 0)
    ^ ((0.5 : ℝ))

/-- Embedding of `Vector::cosine`:
`dot_product / (u_length * v_length)` with no guard against zero norms. -/
noncomputable def Vector.cosine {N : ℕ} (a b : Vector ℝ N) : ℝ :=
  a.dot b / (a.norm * b.norm)

/-- Embedding of `Vector::cross`. In the source the receiver is a generic
`Vector<T, N>` (only the argument and result are `Vector<T, 3>`), and the
receiver components are read through the panicking `Index` impl, so the
accesses `self[0]`, `self[1]`, `self[2]` are modelled with `Vector.index`
and the whole call panics (`none`) when any of them is out of range. -/
def Vector.cross {T : Type} {N : ℕ} [Mul T] [Sub T] (a : Vector T N)
    (b : Vector T 3) : Option (Vector T 3) :=
  match a.index 0, a.index 1, a.index 2, b.index 0, b.index 1, b.index 2 with
  | some a0, some a1, some a2, some b0, some b1, some b2 =>
      some ⟨![a1 * b2 - a2 * b1,
              a2 * b0 - a0 * b2,
              a0 * b1 - a1 * b0]⟩
  | _, _, _, _, _, _ => none

/-- Embedding of the free function `lerp`: `x + (y - x) * t`, where
`* t` is multiplication by the float factor (`Mul<f32, Output = T>`),
modelled as the scalar action `t • (y - x)` of `ℝ` on `T`. -/
def lerp {T : Type} [Add T] [Sub T] [SMul ℝ T] (x y : T) (t : ℝ) : T :=
  x + t • (y - x)

/-- Embedding of the free function `linear_combination`: asserts the vector
list is non-empty and the two lists have equal length (panic = `none`),
then starts from `[T::default(); N]` (the all-zero array for numeric `T`)
and accumulates `result[j] = result[j] + scalar * vector[j]` over
`scalars.iter().zip(vectors.iter())`. -/
def linear_combination {T : Type} {N : ℕ} [Zero T] [Add T] [Mul T]
    (vectors : List (Vector T N)) (scalars : List T) :
    Option (Vector T N) :=
  if vectors.isEmpty then none
  else if vectors.length = scalars.length then
    some ⟨fun j => (scalars.zip vectors).foldl
      (fun res p => res + p.1 * p.2.data j) 0⟩
  else none

/-- Model of an IEEE float value for equality purposes only: a numeric value
or NaN. Rust's `PartialEq` on floats compares numeric values exactly and
makes `NaN != NaN` (and `NaN != x` for every `x`). -/
inductive FloatVal where
  | num : ℚ → FloatVal
  | nan : FloatVal
deriving DecidableEq

/-- Rust float `PartialEq`: `NaN` compares unequal to everything, including
itself; numeric values compare by value. -/
def FloatVal.beq : FloatVal → FloatVal → Bool
  | .num a, .num b => decide (a = b)
  | _, _ => false

/-- Folding addition over a list starting from `a` is `a` plus the sum of
the mapped list. -/
theorem foldl_add_sum {α : Type} {M : Type} [AddMonoid M] (g : α → M) :
    ∀ (l : List α) (a : M),
      l.foldl (fun s x => s + g x) a = a + (l.map g).sum := by
  intro l
  induction l with
  | nil => intro a; simp
  | cons x xs ih =>
      intro a
      simp only [List.foldl_cons, List.map_cons, List.sum_cons]
      rw [ih, add_assoc]

/-- The source's `fold(0., |sum, x| sum + f x)` over the index range equals
the finite sum over `Fin N`. -/
theorem foldl_finRange {M : Type} [AddCommMonoid M] {N : ℕ} (f : Fin N → M) :
    (List.finRange N).foldl (fun s i => s + f i) 0 = ∑ i, f i := by
  rw [foldl_add_sum, zero_add, ← Fin.sum_univ_def]

/-- Pairwise characterisation of the embedded `PartialEq` on vectors. -/
theorem Vector.eq_true_iff {T : Type} {N : ℕ} (beq : T → T → Bool)
    (a b : Vector T N) :
    Vector.eq beq a b = true ↔ ∀ i, beq (a.data i) (b.data i) = true := by
  simp [Vector.eq, List.all_eq_true, List.mem_finRange]

/-- C2: for every vector `v`, `norm v` equals the square root of the sum of
the squared absolute values of its elements, the result is always
nonnegative, and it is zero exactly when every element of `v` is zero. -/
theorem norm_spec {N : ℕ} (v : Vector ℝ N) :
    v.norm = Real.sqrt (∑ i, |v.data i| ^ 2)
    ∧ 0 ≤ v.norm
    ∧ (v.norm = 0 ↔ ∀ i, v.data i = 0) := by
  have hterm : ∀ i : Fin N, |v.data i| ^ (2 : ℝ) = |v.data i| ^ (2 : ℕ) := by
    intro i
    rw [show ((2 : ℝ)) = ((2 : ℕ) : ℝ) by norm_num, Real.rpow_natCast]
  have hnn : ∀ j ∈ Finset.univ, (0 : ℝ) ≤ |v.data j| ^ 2 := by
    intro j _
    positivity
  have hnorm : v.norm = Real.sqrt (∑ i, |v.data i| ^ 2) := by
    unfold Vector.norm
    rw [foldl_finRange fun i => |v.data i| ^ (2 : ℝ),
      Finset.sum_congr rfl fun i _ => hterm i,
      show ((0.5 : ℝ)) = 1 / 2 by norm_num, ← Real.sqrt_eq_rpow]
  refine ⟨hnorm, ?_, ?_⟩
  · rw [hnorm]
    exact Real.sqrt_nonneg _
  · rw [hnorm, Real.sqrt_eq_zero']
    constructor
    · intro hle i
      have hsum0 : ∑ i, |v.data i| ^ 2 = 0 :=
        le_antisymm hle (Finset.sum_nonneg hnn)
      have hi := (Finset.sum_eq_zero_iff_of_nonneg hnn).mp hsum0 i
        (Finset.mem_univ i)
      exact abs_eq_zero.mp (sq_eq_zero_iff.mp hi)
    · intro h
      simp [h]

/-- C6: cosine similarity is literally `dot(a, b) / (norm(a) * norm(b))`,
with no guard: when either norm is zero the function still returns the
(unguarded) quotient by zero rather than raising an error. -/
theorem cosine_spec {N : ℕ} (a b : Vector ℝ N) :
    a.cosine b = a.dot b / (a.norm * b.norm)
    ∧ (a.norm = 0 ∨ b.norm = 0 → a.cosine b = a.dot b / 0) := by
  refine ⟨rfl, ?_⟩
  intro h
  rcases h with h | h <;> simp [Vector.cosine, h]

/-- Witness for C6 at the zero vector: the norm of `[0]` is zero and cosine
still evaluates to the quotient by zero. -/
theorem cosine_spec_witness :
    Vector.norm (⟨![0]⟩ : Vector ℝ 1) = 0
    ∧ Vector.cosine (⟨![0]⟩ : Vector ℝ 1) ⟨![1]⟩
        = Vector.dot (⟨![0]⟩ : Vector ℝ 1) ⟨![1]⟩ / 0 := by
  have hsum : (∑ i, |(⟨![0]⟩ : Vector ℝ 1).data i| ^ (2 : ℝ)) = 0 := by
    rw [Fin.sum_univ_one]
    have hd : (⟨![0]⟩ : Vector ℝ 1).data 0 = 0 := rfl
    rw [hd, abs_zero]
    exact Real.zero_rpow (by norm_num)
  have h0 : Vector.norm (⟨![0]⟩ : Vector ℝ 1) = 0 := by
    unfold Vector.norm
    rw [foldl_finRange fun i => |(⟨![0]⟩ : Vector ℝ 1).data i| ^ (2 : ℝ),
      hsum]
    exact Real.zero_rpow (by norm_num)
  exact ⟨h0, (cosine_spec ⟨![0]⟩ ⟨![1]⟩).2 (Or.inl h0)⟩

/-- C7: the cross product of two 3-dimensional vectors is the standard
formula, and in particular the cross product of the first two standard
basis vectors is the third. -/
theorem cross_spec {T : Type} [Mul T] [Sub T] (a b : Vector T 3) :
    a.cross b = some ⟨![a.data 1 * b.data 2 - a.data 2 * b.data 1,
                       a.data 2 * b.data 0 - a.data 0 * b.data 2,
                       a.data 0 * b.data 1 - a.data 1 * b.data 0]⟩
    ∧ Vector.cross (⟨![1, 0, 0]⟩ : Vector ℤ 3) ⟨![0, 1, 0]⟩
        = some ⟨![0, 0, 1]⟩ := by
  constructor
  · rfl
  · decide

/-- C1 (refuting the structural-enforcement claim): `cross` is callable with
a receiver of any dimension `N` (only the argument and result are fixed at
dimension 3). A 2-dimensional receiver reaches the out-of-range access
`self[2]` and panics, and a 5-dimensional receiver is accepted and silently
uses only the first three components. -/
theorem cross_dimension_bug :
    Vector.cross (⟨![1, 2]⟩ : Vector ℤ 2) ⟨![0, 1, 0]⟩ = none
    ∧ Vector.cross (⟨![1, 2, 3, 4, 5]⟩ : Vector ℤ 5) ⟨![0, 1, 0]⟩
        = some ⟨![-3, 0, 1]⟩ := by
  exact ⟨rfl, by decide⟩

/-- Under both preconditions, `linear_combination` returns the accumulated
per-coordinate fold over the zipped scalar/vector lists. -/
theorem linear_combination_some {T : Type} {N : ℕ} [Zero T] [Add T] [Mul T]
    (vectors : List (Vector T N)) (scalars : List T)
    (h1 : vectors ≠ []) (h2 : vectors.length = scalars.length) :
    linear_combination vectors scalars
      = some ⟨fun j => (scalars.zip vectors).foldl
          (fun res p => res + p.1 * p.2.data j) 0⟩ := by
  unfold linear_combination
  rw [if_neg (by simpa using h1), if_pos h2]

/-- C3: for a non-empty vector list and an equal-length scalar list,
`linear_combination` returns the weighted sum of the vectors, coordinate by
coordinate; in particular a single vector with weight one is returned
unchanged and two vectors with weight one sum to their vector addition. -/
theorem linear_combination_spec {T : Type} {N : ℕ} [Semiring T]
    (vectors : List (Vector T N)) (scalars : List T)
    (h1 : vectors ≠ []) (h2 : vectors.length = scalars.length) :
    linear_combination vectors scalars
      = some ⟨fun j =>
          ((scalars.zip vectors).map fun p => p.1 * p.2.data j).sum⟩
    ∧ (∀ v : Vector T N, linear_combination [v] [1] = some v)
    ∧ (∀ v w : Vector T N,
        linear_combination [v, w] [1, 1] = some (v.add w)) := by
  refine ⟨?_, ?_, ?_⟩
  · rw [linear_combination_some vectors scalars h1 h2]
    refine congrArg some (Vector.ext fun j => ?_)
    show (scalars.zip vectors).foldl (fun res p => res + p.1 * p.2.data j) 0
      = ((scalars.zip vectors).map fun p => p.1 * p.2.data j).sum
    rw [foldl_add_sum, zero_add]
  · intro v
    rw [linear_combination_some [v] [1] (List.cons_ne_nil _ _) rfl]
    refine congrArg some (Vector.ext fun j => ?_)
    show (0 : T) + 1 * v.data j = v.data j
    simp
  · intro v w
    rw [linear_combination_some [v, w] [1, 1] (List.cons_ne_nil _ _) rfl]
    refine congrArg some (Vector.ext fun j => ?_)
    show ((0 : T) + 1 * v.data j) + 1 * w.data j = (v.add w).data j
    show ((0 : T) + 1 * v.data j) + 1 * w.data j = v.data j + w.data j
    simp

/-- Witness for C3 at the spec's concrete scenario:
`linear_combination([[1,0],[0,1]], [2,3]) == [2,3]`. -/
theorem linear_combination_spec_witness :
    linear_combination (N := 2) [⟨![(1 : ℤ), 0]⟩, ⟨![0, 1]⟩] [2, 3]
      = some ⟨![2, 3]⟩ := by
  rw [(linear_combination_spec [⟨![(1 : ℤ), 0]⟩, ⟨![0, 1]⟩] [2, 3]
    (List.cons_ne_nil _ _) rfl).1]
  refine congrArg some (Vector.ext fun j => ?_)
  fin_cases j <;> simp [List.zip_cons_cons]

/-- C4: `linear_combination` panics (returns `none`) exactly when the vector
list is empty or the two lists have different lengths, and completes with a
result whenever both preconditions hold. -/
theorem linear_combination_panic_spec {T : Type} {N : ℕ}
    [Zero T] [Add T] [Mul T]
    (vectors : List (Vector T N)) (scalars : List T) :
    (linear_combination vectors scalars = none
      ↔ vectors = [] ∨ vectors.length ≠ scalars.length)
    ∧ (vectors ≠ [] → vectors.length = scalars.length
        → ∃ w, linear_combination vectors scalars = some w) := by
  constructor
  · constructor
    · intro hnone
      by_cases h1 : vectors = []
      · exact Or.inl h1
      · by_cases h2 : vectors.length = scalars.length
        · rw [linear_combination_some vectors scalars h1 h2] at hnone
          exact absurd hnone (by simp)
        · exact Or.inr h2
    · intro h
      rcases h with h | h
      · subst h
        rfl
      · unfold linear_combination
        by_cases h1 : vectors.isEmpty
        · rw [if_pos h1]
        · rw [if_neg h1, if_neg h]
  · intro h1 h2
    exact ⟨_, linear_combination_some vectors scalars h1 h2⟩

/-- Witness for C4: the spec's `linear_combination([], [])` panics, a length
mismatch panics, and a well-formed call completes. -/
theorem linear_combination_panic_spec_witness :
    linear_combination (T := ℤ) (N := 1) [] [] = none
    ∧ linear_combination (T := ℤ) (N := 1) [⟨![5]⟩] [2, 3] = none
    ∧ ∃ w, linear_combination (T := ℤ) (N := 1) [⟨![5]⟩] [2] = some w := by
  refine ⟨?_, ?_, ?_⟩
  · exact (linear_combination_panic_spec [] []).1.mpr (Or.inl rfl)
  · exact (linear_combination_panic_spec _ _).1.mpr (Or.inr (by decide))
  · exact (linear_combination_panic_spec _ _).2 (List.cons_ne_nil _ _) rfl

/-- C5: indexed read and indexed write succeed and touch exactly position
`i` when `i < N`, and both panic (return `none`) for every `i ≥ N`. -/
theorem index_spec {T : Type} {N : ℕ} (v : Vector T N) (x : T) (i : ℕ) :
    (∀ h : i < N, v.index i = some (v.data ⟨i, h⟩)
      ∧ v.index_mut i x = some ⟨Function.update v.data ⟨i, h⟩ x⟩)
    ∧ (N ≤ i → v.index i = none ∧ v.index_mut i x = none) := by
  constructor
  · intro h
    exact ⟨by simp [Vector.index, h], by simp [Vector.index_mut, h]⟩
  · intro h
    have h2 : ¬ i < N := Nat.not_lt.mpr h
    exact ⟨by simp [Vector.index, h2], by simp [Vector.index_mut, h2]⟩

/-- Witness for C5: in-range read succeeds, and read/write at `i == N`
panic. -/
theorem index_spec_witness :
    Vector.index (⟨![10, 20]⟩ : Vector ℤ 2) 0 = some 10
    ∧ Vector.index (⟨![10, 20]⟩ : Vector ℤ 2) 2 = none
    ∧ Vector.index_mut (⟨![10, 20]⟩ : Vector ℤ 2) 2 (7 : ℤ) = none := by
  refine ⟨?_, ?_, ?_⟩
  · exact ((index_spec ⟨![10, 20]⟩ (7 : ℤ) 0).1 (by norm_num)).1
  · exact ((index_spec ⟨![10, 20]⟩ (7 : ℤ) 2).2 (by norm_num)).1
  · exact ((index_spec ⟨![10, 20]⟩ (7 : ℤ) 2).2 (by norm_num)).2

/-- C8: `lerp x y t` is `x + (y - x) * t` for every factor `t` (no clamping:
the same formula applies outside `[0, 1]`), and in particular `t = 0` gives
`x` and `t = 1` gives `y`. -/
theorem lerp_spec {T : Type} [AddCommGroup T] [Module ℝ T]
    (x y : T) (t : ℝ) :
    lerp x y t = x + t • (y - x)
    ∧ lerp x y 0 = x
    ∧ lerp x y 1 = y := by
  refine ⟨rfl, ?_, ?_⟩
  · simp [lerp]
  · simp [lerp]

/-- Witness for C8: the spec's `lerp(0.0, 10.0, 0.5) == 5.0`, endpoint
checks included. -/
theorem lerp_spec_witness :
    lerp (0 : ℝ) 10 0.5 = 0 + (0.5 : ℝ) • (10 - 0 : ℝ)
    ∧ lerp (2 : ℝ) 5 0 = 2
    ∧ lerp (2 : ℝ) 5 1 = 5 :=
  ⟨(lerp_spec 0 10 0.5).1, (lerp_spec 2 5 0).2.1, (lerp_spec 2 5 1).2.2⟩

/-- C9: vector addition is elementwise and associative whenever the element
type's addition is associative. -/
theorem add_assoc_spec {T : Type} {N : ℕ} [AddSemigroup T]
    (a b c : Vector T N) :
    (a.add b).add c = a.add (b.add c)
    ∧ (∀ i, (a.add b).data i = a.data i + b.data i) := by
  constructor
  · apply Vector.ext
    intro i
    show (a.data i + b.data i) + c.data i = a.data i + (b.data i + c.data i)
    exact add_assoc _ _ _
  · intro i
    rfl

/-- Witness for C9 at concrete integer vectors. -/
theorem add_assoc_spec_witness :
    ((⟨![1, 2]⟩ : Vector ℤ 2).add ⟨![3, 4]⟩).add ⟨![5, 6]⟩
      = (⟨![1, 2]⟩ : Vector ℤ 2).add ((⟨![3, 4]⟩ : Vector ℤ 2).add ⟨![5, 6]⟩) :=
  (add_assoc_spec ⟨![1, 2]⟩ ⟨![3, 4]⟩ ⟨![5, 6]⟩).1

/-- C10: vector equality is the pairwise equality of the underlying arrays
under the element type's own equality; with float semantics (`NaN != NaN`)
a vector containing NaN is not equal to itself, while every NaN-free vector
is. -/
theorem eq_pairwise_spec :
    (∀ (T : Type) (N : ℕ) (beq : T → T → Bool) (a b : Vector T N),
        Vector.eq beq a b = true ↔ ∀ i, beq (a.data i) (b.data i) = true)
    ∧ (∀ (N : ℕ) (v : Vector FloatVal N) (i : Fin N),
        v.data i = FloatVal.nan → Vector.eq FloatVal.beq v v = false)
    ∧ (∀ (N : ℕ) (v : Vector FloatVal N),
        (∀ i, v.data i ≠ FloatVal.nan)
          → Vector.eq FloatVal.beq v v = true) := by
  refine ⟨fun T N beq a b => Vector.eq_true_iff beq a b, ?_, ?_⟩
  · intro N v i hi
    cases hEq : Vector.eq FloatVal.beq v v with
    | false => rfl
    | true =>
        have hb := (Vector.eq_true_iff FloatVal.beq v v).mp hEq i
        rw [hi] at hb
        exact absurd hb (by simp [FloatVal.beq])
  · intro N v hv
    refine (Vector.eq_true_iff FloatVal.beq v v).mpr fun i => ?_
    cases h : v.data i with
    | num q => simp [FloatVal.beq]
    | nan => exact absurd h (hv i)

/-- Witness for C10: a one-element NaN vector is unequal to itself, a
numeric one is equal to itself. -/
theorem eq_pairwise_spec_witness :
    Vector.eq FloatVal.beq (⟨![FloatVal.nan]⟩ : Vector FloatVal 1)
        ⟨![FloatVal.nan]⟩ = false
    ∧ Vector.eq FloatVal.beq (⟨![FloatVal.num 1]⟩ : Vector FloatVal 1)
        ⟨![FloatVal.num 1]⟩ = true := by
  constructor
  · exact eq_pairwise_spec.2.1 1 ⟨![FloatVal.nan]⟩ 0 rfl
  · exact eq_pairwise_spec.2.2 1 ⟨![FloatVal.num 1]⟩ (by decide)

end Pradene
